import Mathlib

/-!
Shallow embedding of the file-backed persistence layer of the
openprinttag-database UI editor (src/ui-editor/src/server/data/fs.ts).

JavaScript strings are modelled as lists of characters (`JStr`), JavaScript
values as the inductive `Value`, and the filesystem as explicit state
(`Dir`, `FileSystem`).  The external `yaml` npm library is modelled as an
abstract collaborator (`YamlLib` inside `Codec`); `none` outcomes stand for
thrown exceptions.  Definitions follow the source functions line by line and
keep their names.
-/

/-- A JavaScript string, modelled as its list of characters. -/
abbrev JStr := List Char

/-- Embed a Lean string literal as a `JStr`. -/
def jstr (s : String) : JStr := s.toList

/-- The JavaScript regular-expression whitespace class (also the set
used by trim): space, tab, line terminators, and the Unicode space
separators. -/
def jsWhitespace (c : Char) : Bool :=
  c = ' ' || c = '\t' || c = '\n' || c = '\r' || c = '\x0b' || c = '\x0c' ||
  c = '\u00a0' || c = '\u1680' || ('\u2000' ≤ c && c ≤ '\u200a') ||
  c = '\u2028' || c = '\u2029' || c = '\u202f' || c = '\u205f' ||
  c = '\u3000' || c = '\ufeff'

/-- JavaScript toLowerCase, restricted to the ASCII letters (the
only characters this development ever lowercases; characters outside A-Z are
left unchanged). -/
def jsToLowerChar (c : Char) : Char :=
  if 'A' ≤ c && c ≤ 'Z' then Char.ofNat (c.toNat + 32) else c

/-- Combining diacritical marks, the range U+0300 to U+036F removed by the
mark-stripping replace in `slugifyName`. -/
def isCombiningMark (c : Char) : Bool :=
  '\u0300' ≤ c && c ≤ '\u036f'

/-- Unicode NFKD decomposition (JavaScript normalize with "NFKD"),
restricted to the Latin-1 accented letters; every other character is left
undecomposed.  This is the platform collaborator used by `slugifyName`,
modelled for the character repertoire exercised by this development. -/
def nfkdChar (c : Char) : JStr :=
  match c with
  | 'À' => ['A', '\u0300'] | 'Á' => ['A', '\u0301'] | 'Â' => ['A', '\u0302']
  | 'Ã' => ['A', '\u0303'] | 'Ä' => ['A', '\u0308'] | 'Å' => ['A', '\u030a']
  | 'Ç' => ['C', '\u0327'] | 'È' => ['E', '\u0300'] | 'É' => ['E', '\u0301']
  | 'Ê' => ['E', '\u0302'] | 'Ë' => ['E', '\u0308'] | 'Ì' => ['I', '\u0300']
  | 'Í' => ['I', '\u0301'] | 'Î' => ['I', '\u0302'] | 'Ï' => ['I', '\u0308']
  | 'Ñ' => ['N', '\u0303'] | 'Ò' => ['O', '\u0300'] | 'Ó' => ['O', '\u0301']
  | 'Ô' => ['O', '\u0302'] | 'Õ' => ['O', '\u0303'] | 'Ö' => ['O', '\u0308']
  | 'Ù' => ['U', '\u0300'] | 'Ú' => ['U', '\u0301'] | 'Û' => ['U', '\u0302']
  | 'Ü' => ['U', '\u0308'] | 'Ý' => ['Y', '\u0301']
  | 'à' => ['a', '\u0300'] | 'á' => ['a', '\u0301'] | 'â' => ['a', '\u0302']
  | 'ã' => ['a', '\u0303'] | 'ä' => ['a', '\u0308'] | 'å' => ['a', '\u030a']
  | 'ç' => ['c', '\u0327'] | 'è' => ['e', '\u0300'] | 'é' => ['e', '\u0301']
  | 'ê' => ['e', '\u0302'] | 'ë' => ['e', '\u0308'] | 'ì' => ['i', '\u0300']
  | 'í' => ['i', '\u0301'] | 'î' => ['i', '\u0302'] | 'ï' => ['i', '\u0308']
  | 'ñ' => ['n', '\u0303'] | 'ò' => ['o', '\u0300'] | 'ó' => ['o', '\u0301']
  | 'ô' => ['o', '\u0302'] | 'õ' => ['o', '\u0303'] | 'ö' => ['o', '\u0308']
  | 'ù' => ['u', '\u0300'] | 'ú' => ['u', '\u0301'] | 'û' => ['u', '\u0302']
  | 'ü' => ['u', '\u0308'] | 'ý' => ['y', '\u0301'] | 'ÿ' => ['y', '\u0308']
  | _ => [c]

/-- JavaScript trim: strip leading and trailing whitespace. -/
def trimChars (l : JStr) : JStr :=
  ((l.dropWhile jsWhitespace).reverse.dropWhile jsWhitespace).reverse

/-- Worker for `replaceRuns`: the flag records whether the previous
character belonged to a run being replaced. -/
def replaceRunsAux (p : Char → Bool) (r : Char) : Bool → JStr → JStr
  | _, [] => []
  | inRun, c :: cs =>
    if p c then
      (if inRun then [] else [r]) ++ replaceRunsAux p r true cs
    else c :: replaceRunsAux p r false cs

/-- A global regex replace of a character-class run by a single character:
every maximal nonempty run of characters satisfying `p` is replaced by the
single character `r`. -/
def replaceRuns (p : Char → Bool) (r : Char) (l : JStr) : JStr :=
  replaceRunsAux p r false l

/-- Characters kept by the punctuation-dropping replace in `slugifyName`:
lowercase ASCII letters, digits, whitespace and the hyphen. -/
def isSlugKeep (c : Char) : Bool :=
  ('a' ≤ c && c ≤ 'z') || ('0' ≤ c && c ≤ '9') || jsWhitespace c || c = '-'

/-- The transformation applied by `slugifyName` to a nonempty string on the
primary (Unicode-decomposition) path, in source order: NFKD-decompose,
remove combining marks, lowercase, trim, drop characters outside the slug
character class, collapse whitespace-or-underscore runs to a hyphen,
collapse hyphen runs. -/
def slugPipeline (s : JStr) : JStr :=
  let withNoDiacritics := (s.flatMap nfkdChar).filter (fun c => !isCombiningMark c)
  replaceRuns (fun c => c == '-') '-'
    (replaceRuns (fun c => jsWhitespace c || c == '_') '-'
      ((trimChars (withNoDiacritics.map jsToLowerChar)).filter isSlugKeep))

/-- A JavaScript value as it occurs in this layer: the result of parsing a
document, a field value, or a value passed to the writers.  Objects are
modelled as association lists in property-creation order; a duplicated key
stands for a later overwrite of the same property, so lookups take the
last occurrence (see `lookupLast`). -/
inductive Value where
  | vNull
  | vUndefined
  | vBool (b : Bool)
  | vNum (n : Int)
  | vStr (s : JStr)
  | vArr (elems : List Value)
  | vObj (fields : List (JStr × Value))

/-- Last-occurrence association lookup: the value a JavaScript object holds
for key `k` when the association list records assignments in order. -/
def lookupLast : List (JStr × Value) → JStr → Option Value
  | [], _ => none
  | p :: ps, k =>
    match lookupLast ps k with
    | some v => some v
    | none => if p.1 = k then some p.2 else none

/-- JavaScript property access `v[k]` as used by this layer: a missing key
or a non-object receiver yields undefined.  (The callers below only access
properties after a truthiness guard, so the null/undefined receiver case is
never reached.) -/
def getField (v : Value) (k : JStr) : Value :=
  match v with
  | .vObj fields => (lookupLast fields k).getD .vUndefined
  | _ => .vUndefined

/-- JavaScript truthiness test, negated: the values for which `!v` is true. -/
def jsFalsy : Value → Bool
  | .vNull => true
  | .vUndefined => true
  | .vBool b => !b
  | .vNum n => n == 0
  | .vStr s => s.isEmpty
  | .vObj _ => false
  | .vArr _ => false

/-- One decimal digit character. -/
def digit10 (d : Nat) : Char :=
  match d with
  | 0 => '0' | 1 => '1' | 2 => '2' | 3 => '3' | 4 => '4'
  | 5 => '5' | 6 => '6' | 7 => '7' | 8 => '8' | _ => '9'

/-- Worker for `natDigits` with a structural fuel argument (the fuel
`n + 1` always suffices since the argument shrinks by a factor of ten). -/
def natDigitsAux : Nat → Nat → JStr
  | 0, _ => []
  | fuel + 1, n =>
    if n < 10 then [digit10 n]
    else natDigitsAux fuel (n / 10) ++ [digit10 (n % 10)]

/-- Decimal rendering of a natural number. -/
def natDigits (n : Nat) : JStr :=
  natDigitsAux (n + 1) n

/-- Decimal rendering of an integer, as JavaScript prints whole numbers. -/
def intToString (n : Int) : JStr :=
  if n < 0 then '-' :: natDigits n.natAbs else natDigits n.toNat

mutual
/-- The JavaScript string coercion used for the uuid comparison in
`matchesId`.  Arrays stringify as their comma-joined elements with null and
undefined elements rendered empty; plain objects stringify as the usual
object tag. -/
def jsToString : Value → JStr
  | .vUndefined => jstr "undefined"
  | .vNull => jstr "null"
  | .vBool true => jstr "true"
  | .vBool false => jstr "false"
  | .vNum n => intToString n
  | .vStr s => s
  | .vObj _ => jstr "[object Object]"
  | .vArr es => List.intercalate [','] (jsToStringElems es)

/-- Stringify the elements of an array for the array-join coercion. -/
def jsToStringElems : List Value → List JStr
  | [] => []
  | e :: es =>
    (match e with
     | .vNull => []
     | .vUndefined => []
     | _ => jsToString e) :: jsToStringElems es
end

/-- Spreading a value into an object literal: an object contributes its
fields, a string or an array contributes index-keyed entries, and the
primitive values contribute nothing. -/
def spreadFields : Value → List (JStr × Value)
  | .vObj fields => fields
  | .vStr s => (s.enum.map fun p => (natDigits p.1, Value.vStr [p.2]))
  | .vArr es => (es.enum.map fun p => (natDigits p.1, p.2))
  | _ => []

/-- The result of a JavaScript computation that either produces a value
or throws an uncaught exception. -/
inductive JsRes (α : Type) where
  | val (a : α)
  | thrown
deriving DecidableEq

/-- `slugifyName` (fs.ts lines 5-23): normalize a human-readable name into
a kebab-case slug.  A falsy input returns null; a nonempty string runs the
primary (Unicode-decomposition) pipeline, whose pure operations cannot
throw, so the catch branch is unreachable for strings.  A truthy
non-string input (possible at the untyped call site in `matchesId`, e.g. a
numeric name parsed from a document) throws a TypeError: the normalize
call in the try block and the toLowerCase call in the catch block are both
absent on non-strings, so the exception escapes the function. -/
def slugifyName (input : Value) : JsRes (Option JStr) :=
  if jsFalsy input then .val none
  else
    match input with
    | .vStr s => .val (some (slugPipeline s))
    | _ => .thrown

/-- Case-insensitive test for the recognized data-file extensions, the
regex on lowercased names: a name ending in ".yaml" or ".yml". -/
def isYamlFileName (n : JStr) : Bool :=
  let ln := n.map jsToLowerChar
  (jstr ".yaml").isSuffixOf ln || (jstr ".yml").isSuffixOf ln

/-- Strip a trailing ".yaml" or ".yml" extension (case-insensitively), as
the stem-extracting replace in `matchesId` does; names without the
extension are returned unchanged. -/
def stripYamlExt (s : JStr) : JStr :=
  let ls := s.map jsToLowerChar
  if (jstr ".yaml").isSuffixOf ls then s.take (s.length - 5)
  else if (jstr ".yml").isSuffixOf ls then s.take (s.length - 4)
  else s

/-- `matchesId` (fs.ts lines 142-155): does the caller-supplied identifier
refer to this loaded document?  False for a falsy document or identifier;
otherwise the filename stem and the name-derived slug are computed eagerly
(so a TypeError thrown by `slugifyName` on a truthy non-string name field
escapes before any comparison), and the result is the disjunction of
strict equality of the slug field, the source filename stem, the derived
name slug, and the string-coerced uuid field. -/
def matchesId (entity : Value) (id : JStr) : JsRes Bool :=
  if jsFalsy entity || id.isEmpty then .val false
  else
    let fileStem : Option JStr :=
      match getField entity (jstr "__file") with
      | .vStr s => some (stripYamlExt s)
      | _ => none
    match slugifyName (getField entity (jstr "name")) with
    | .thrown => .thrown
    | .val nameSlug =>
      .val ((match getField entity (jstr "slug") with
             | .vStr s => s == id
             | _ => false)
        || (match fileStem with | some s => s == id | none => false)
        || (match nameSlug with | some s => s == id | none => false)
        || (jsToString (getField entity (jstr "uuid")) == id))

/-- The external yaml npm library, an abstract collaborator.  A `none`
result models a thrown exception in the corresponding library call. -/
structure YamlLib where
  parse : JStr → Option Value
  stringify : Value → Option JStr

/-- Availability of the yaml library at runtime: `lib = none` models the
dynamic import failing. -/
structure Codec where
  lib : Option YamlLib

/-- Strip one trailing carriage return, so that splitting on the newline
character matches splitting on the optional-CR line separator regex. -/
def dropTrailingCR (l : JStr) : JStr :=
  if l.getLast? = some '\r' then l.dropLast else l

/-- Split file content into lines at LF or CRLF separators. -/
def splitLines (content : JStr) : List JStr :=
  (content.splitOn '\n').map dropTrailingCR

/-- A single or double quote character. -/
def isQuoteChar (c : Char) : Bool :=
  c = Char.ofNat 39 || c = '"'

/-- A JavaScript regex line terminator, which the dot pattern never
matches. -/
def isLineTerminator (c : Char) : Bool :=
  c = '\n' || c = '\r' || c = ' ' || c = ' '

/-- Whether a trimmed value matches the quoted-scalar regex of the naive
parser: a leading quote, a trailing quote, at least two characters, and no
line terminator between them. -/
def quotedValue (raw : JStr) : Bool :=
  match raw with
  | [] => false
  | c :: rest =>
    isQuoteChar c &&
      (match rest.getLast? with
       | some d => isQuoteChar d && !(rest.dropLast.any isLineTerminator)
       | none => false)

/-- One line of the naive fallback parser (fs.ts lines 88-99): skip blank
and comment lines and lines without a colon; otherwise trim the key and the
value, map literal null and tilde to null, strip one layer of quotes, and
keep the rest as a string. -/
def parseYamlLine (rawLine : JStr) : Option (JStr × Value) :=
  let line := trimChars rawLine
  if line.isEmpty then none
  else if line.head? = some '#' then none
  else
    match line.findIdx? (fun c => c = ':') with
    | none => none
    | some idx =>
      let key := trimChars (line.take idx)
      let value := trimChars (line.drop (idx + 1))
      if value = jstr "null" || value = ['~'] then some (key, Value.vNull)
      else if quotedValue value then some (key, Value.vStr ((value.drop 1).dropLast))
      else some (key, Value.vStr value)

/-- The naive fallback line parser: the object assembled from the parsed
key-value lines.  Later lines assigning the same key overwrite earlier
ones, which the association-list representation records positionally and
`lookupLast` resolves. -/
def naiveParseYaml (content : JStr) : Value :=
  Value.vObj ((splitLines content).filterMap parseYamlLine)

/-- `parseYaml` (fs.ts lines 77-101): use the library parser when the
dynamic import succeeds; an import failure, a missing parse function, or an
exception thrown by the library parser all fall through to the naive
fallback parser.  Consequently parsing as a whole never fails. -/
def parseYaml (c : Codec) (content : JStr) : Value :=
  match c.lib with
  | some lib =>
    match lib.parse content with
    | some v => v
    | none => naiveParseYaml content
  | none => naiveParseYaml content

/-- A directory entry: a file name together with the outcome of reading it
(`none` models a read that throws, for example after a concurrent
deletion). -/
structure FSFile where
  name : JStr
  readResult : Option JStr

/-- A resolved entity directory: its files in enumeration order, plus which
target names a write or unlink would fail on (modelling filesystem write
errors). -/
structure Dir where
  files : List FSFile
  writeFails : JStr → Bool

/-- `ReadOptions` (fs.ts lines 103-108). -/
structure ReadOptions where
  fileFilter : Option (JStr → Bool)
  validate : Option (Value → Bool)

/-- The default (absent) read options. -/
def noOptions : ReadOptions := ⟨none, none⟩

/-- The document pushed by the collection scan for one file: the provenance
field first, then the spread of the parsed content, which therefore shadows
the provenance field when the parsed content defines the same key. -/
def mkScannedDoc (file : JStr) (parsed : Value) : Value :=
  Value.vObj ((jstr "__file", Value.vStr file) :: spreadFields parsed)

/-- `getEntityFiles` (fs.ts lines 114-140): list the directory, keep the
recognized extensions and the names passing the optional filename filter,
parse each file, apply the optional content validator, and skip (with a
logged warning) any file whose read throws.  The directory itself is the
already-resolved one, so the read-directory failure branch (which returns
an empty list) is not reachable here. -/
def getEntityFiles (c : Codec) (dir : Dir) (opts : ReadOptions) : List Value :=
  let yamlFiles := dir.files.filter (fun f =>
    isYamlFileName f.name &&
      (match opts.fileFilter with | some p => p f.name | none => true))
  yamlFiles.filterMap (fun f =>
    match f.readResult with
    | none => none
    | some content =>
      let parsed := parseYaml c content
      match opts.validate with
      | some validate =>
        if validate parsed then some (mkScannedDoc f.name parsed) else none
      | none => some (mkScannedDoc f.name parsed))

/-- `findEntityFile` (fs.ts lines 360-374): probe the directory for the
direct file names, the ".yaml" extension first, then ".yml". -/
def findEntityFile (dir : Dir) (id : JStr) : Option FSFile :=
  match dir.files.find? (fun f => f.name == id ++ jstr ".yaml") with
  | some f => some f
  | none => dir.files.find? (fun f => f.name == id ++ jstr ".yml")

/-- An error descriptor as returned by this layer: a message and a status
code. -/
structure ErrObj where
  error : JStr
  status : Nat
deriving DecidableEq

/-- The root directory of a brand-nested entity type: its immediate
entries, each a literal name paired with the directory it denotes, or
`none` when the entry is not a directory. -/
structure BrandRoot where
  entries : List (JStr × Option Dir)

/-- The filesystem as seen through the directory resolver: the resolved
directory per flat entity type (`findEntityDir` collapses its
candidate-location probing to this map), the resolved root per nested
entity type, and the contents of the external lookup-table files. -/
structure FileSystem where
  dirs : JStr → Option Dir
  nestedRoots : JStr → Option BrandRoot
  lookupFiles : JStr → Option JStr

/-- The rest-destructuring that removes the provenance key before a
document is returned to the caller. -/
def stripFileField : Value → Value
  | .vObj fields => .vObj (fields.filter (fun p => !(p.1 == jstr "__file")))
  | v => v

/-- The overall outcome of one operation of this layer: a returned value,
a returned error descriptor, or an uncaught JavaScript exception (a
rejected promise at the async call boundary). -/
inductive Outcome (α : Type) where
  | ok (a : α)
  | err (e : ErrObj)
  | thrown

/-- Array-find with a predicate that may throw: elements are tested in
order and a throwing predicate aborts the whole search with that
exception. -/
def findThrow {α : Type} (p : α → JsRes Bool) : List α → JsRes (Option α)
  | [] => .val none
  | x :: xs =>
    match p x with
    | .thrown => .thrown
    | .val true => .val (some x)
    | .val false => findThrow p xs

/-- The fallback branch of `readSingleEntity`: scan the whole collection,
match by identifier (propagating a TypeError thrown by the matcher on a
document with a truthy non-string name), and strip the provenance field;
a completed scan with no match is the not-found error with the naively
singularized entity name. -/
def readSingleEntityScan (c : Codec) (dir : Dir) (entity : JStr) (id : JStr) :
    Outcome Value :=
  match findThrow (fun e => matchesId e id) (getEntityFiles c dir noOptions) with
  | .thrown => .thrown
  | .val none => .err ⟨entity.dropLast ++ jstr " not found", 404⟩
  | .val (some m) => .ok (stripFileField m)

/-- `readSingleEntity` (fs.ts lines 218-245): resolve the directory, try
the direct file first and return its parsed content immediately on
success; a failed read falls back to the full scan, as does a missing
direct file.  Nothing catches an exception thrown during the fallback
scan, so it propagates to the caller. -/
def readSingleEntity (c : Codec) (fsys : FileSystem) (entity : JStr) (id : JStr) :
    Outcome Value :=
  match fsys.dirs entity with
  | none => .err ⟨entity ++ jstr " directory not found", 500⟩
  | some dir =>
    match findEntityFile dir id with
    | some file =>
      match file.readResult with
      | some content => .ok (parseYaml c content)
      | none => readSingleEntityScan c dir entity id
    | none => readSingleEntityScan c dir entity id

/-- Probe one immediate entry of a nested root by literal name; `none` when
the entry does not exist or is not a directory. -/
def lookupSubdir (root : BrandRoot) (name : JStr) : Option Dir :=
  match root.entries.find? (fun e => e.1 == name) with
  | some e => e.2
  | none => none

/-- `findBrandDir` (fs.ts lines 157-196), at `createIfMissing = false`, the
value used by every read operation: resolve the nested root, try the
subdirectory literally named by the caller-supplied identifier, and
otherwise resolve the brand document by identifier and try the subdirectory
named by its explicit slug or (lazily, only when the slug field is falsy)
its name-derived slug.  An exception from the brand resolution or from
`slugifyName` propagates; a truthy non-string slug field makes the
uncaught path join throw. -/
def findBrandDir (c : Codec) (fsys : FileSystem) (brandId : JStr)
    (entityDirName : JStr) : JsRes (Option Dir) :=
  match fsys.nestedRoots entityDirName with
  | none => .val none
  | some root =>
    match lookupSubdir root brandId with
    | some d => .val (some d)
    | none =>
      match readSingleEntity c fsys (jstr "brands") brandId with
      | .thrown => .thrown
      | .err _ => .val none
      | .ok brand =>
        let slugVal := getField brand (jstr "slug")
        if !jsFalsy slugVal then
          match slugVal with
          | .vStr s => .val (lookupSubdir root s)
          | _ => .thrown
        else
          match slugifyName (getField brand (jstr "name")) with
          | .thrown => .thrown
          | .val none => .val none
          | .val (some s) =>
            if s.isEmpty then .val none else .val (lookupSubdir root s)

/-- `findBrandDirForNestedEntity` (fs.ts lines 264-270). -/
def findBrandDirForNestedEntity (c : Codec) (fsys : FileSystem)
    (entityDirName : JStr) (brandId : JStr) : JsRes (Option Dir) :=
  findBrandDir c fsys brandId entityDirName

/-- The parent back-reference annotation spread onto every returned nested
document: the document fields followed by a brand object holding the given
slug, which therefore wins over any brand field of the document itself. -/
def withBrandRef (f : Value) (brandId : JStr) : Value :=
  Value.vObj (spreadFields f ++
    [(jstr "brand", Value.vObj [(jstr "slug", Value.vStr brandId)])])

/-- `readNestedEntitiesByBrand` (fs.ts lines 272-285): resolve the brand
subdirectory (propagating an exception thrown during that resolution),
read it as a collection, and annotate every document with the
caller-supplied brand identifier. -/
def readNestedEntitiesByBrand (c : Codec) (fsys : FileSystem)
    (entityDirName : JStr) (brandId : JStr) (opts : ReadOptions) :
    Outcome (List Value) :=
  match findBrandDirForNestedEntity c fsys entityDirName brandId with
  | .thrown => .thrown
  | .val none =>
    .err ⟨entityDirName ++ jstr " for brand '" ++ brandId ++ jstr "' not found", 404⟩
  | .val (some dir) =>
    .ok ((getEntityFiles c dir opts).map (fun f => withBrandRef f brandId))

/-- `readAllNestedAcrossBrands` (fs.ts lines 287-310): enumerate the
immediate entries of the nested root, read each entry that is a directory
as a collection, and annotate each document with the literal entry name.
The root was already resolved, so the read-directory failure branch is not
reachable here, and no identifier matching runs, so nothing throws. -/
def readAllNestedAcrossBrands (c : Codec) (fsys : FileSystem)
    (entityDirName : JStr) (opts : ReadOptions) : Outcome (List Value) :=
  match fsys.nestedRoots entityDirName with
  | none => .err ⟨entityDirName ++ jstr " directory not found", 500⟩
  | some root =>
    .ok (root.entries.flatMap (fun e =>
      match e.2 with
      | some dir => (getEntityFiles c dir opts).map (fun f => withBrandRef f e.1)
      | none => []))

/-- `readSingleNestedByBrand` (fs.ts lines 326-356): like
`readSingleEntity` but inside the resolved brand subdirectory, annotating
the result with the caller-supplied brand identifier on both the direct
and the fallback path; exceptions from the brand resolution or the
fallback scan propagate. -/
def readSingleNestedByBrand (c : Codec) (fsys : FileSystem)
    (entityDirName : JStr) (brandId : JStr) (id : JStr) : Outcome Value :=
  match findBrandDirForNestedEntity c fsys entityDirName brandId with
  | .thrown => .thrown
  | .val none =>
    .err ⟨entityDirName ++ jstr " for brand '" ++ brandId ++ jstr "' not found", 404⟩
  | .val (some dir) =>
    let fallback : Outcome Value :=
      match findThrow (fun e => matchesId e id) (getEntityFiles c dir noOptions) with
      | .thrown => .thrown
      | .val none => .err ⟨jstr "entity not found", 404⟩
      | .val (some m) => .ok (withBrandRef (stripFileField m) brandId)
    match findEntityFile dir id with
    | some file =>
      match file.readResult with
      | some content => .ok (withBrandRef (parseYaml c content) brandId)
      | none => fallback
    | none => fallback

/-- `readMaterialsByBrand` (fs.ts lines 249-254). -/
def readMaterialsByBrand (c : Codec) (fsys : FileSystem) (brandId : JStr)
    (opts : ReadOptions) : Outcome (List Value) :=
  readNestedEntitiesByBrand c fsys (jstr "materials") brandId opts

/-- `readAllMaterialsAcrossBrands` (fs.ts lines 256-260). -/
def readAllMaterialsAcrossBrands (c : Codec) (fsys : FileSystem)
    (opts : ReadOptions) : Outcome (List Value) :=
  readAllNestedAcrossBrands c fsys (jstr "materials") opts

/-- One lowercase hexadecimal digit character. -/
def hexChar (n : Nat) : Char :=
  if n < 10 then digit10 n
  else match n with
    | 10 => 'a' | 11 => 'b' | 12 => 'c' | 13 => 'd' | 14 => 'e' | _ => 'f'

/-- JSON string escaping for one character. -/
def jsonEscapeChar (c : Char) : JStr :=
  if c = '"' then ['\\', '"']
  else if c = '\\' then ['\\', '\\']
  else if c = '\x08' then ['\\', 'b']
  else if c = '\t' then ['\\', 't']
  else if c = '\n' then ['\\', 'n']
  else if c = '\x0c' then ['\\', 'f']
  else if c = '\r' then ['\\', 'r']
  else if c.toNat < 32 then
    ['\\', 'u', '0', '0', hexChar (c.toNat / 16), hexChar (c.toNat % 16)]
  else [c]

/-- A JSON-quoted string: escaped content between double quotes. -/
def jsonQuote (s : JStr) : JStr :=
  '"' :: (s.flatMap jsonEscapeChar ++ ['"'])

/-- The indentation prefix at a nesting level for two-space-indented JSON
output. -/
def jsonIndentStr (lvl : Nat) : JStr :=
  List.replicate (2 * lvl) ' '

/-- Last-occurrence lookup over rendered object entries. -/
def lookupLastRendered : List (JStr × Option JStr) → JStr → Option (Option JStr)
  | [], _ => none
  | p :: ps, k =>
    match lookupLastRendered ps k with
    | some v => some v
    | none => if p.1 = k then some p.2 else none

theorem filter_length_le {α : Type} (p : α → Bool) (l : List α) :
    (l.filter p).length ≤ l.length := by
  induction l with
  | nil => simp
  | cons a l ih =>
    simp only [List.filter]
    cases p a <;> simp <;> omega

/-- Collapse duplicated keys the way a JavaScript object records
assignments: keys keep their first-occurrence position, each with its last
assigned (here: last rendered) value. -/
def dedupRendered : List (JStr × Option JStr) → List (JStr × Option JStr)
  | [] => []
  | p :: ps =>
    (p.1, (lookupLastRendered ps p.1).getD p.2) ::
      dedupRendered (ps.filter (fun q => !(q.1 == p.1)))
termination_by l => l.length
decreasing_by
  simp only [List.length_cons]
  exact Nat.lt_succ_of_le (filter_length_le _ ps)

/-- Assemble the multi-line rendering of a nonempty JSON array from its
already-rendered elements. -/
def renderJsonArr (lvl : Nat) (items : List JStr) : JStr :=
  (jstr "[\n" ++
    List.intercalate (jstr ",\n")
      (items.map (fun s => jsonIndentStr (lvl + 1) ++ s)) ++
    jstr "\n" ++ jsonIndentStr lvl) ++ [']']

/-- Assemble the rendering of a JSON object from its already-rendered and
key-deduplicated entries: omitted (undefined) values are dropped, an empty
entry list renders as the empty object. -/
def renderJsonObj (lvl : Nat) (rendered : List (JStr × Option JStr)) : JStr :=
  let entries := rendered.filterMap
    (fun p =>
      match p.2 with
      | some s => some (jsonIndentStr (lvl + 1) ++ jsonQuote p.1 ++ jstr ": " ++ s)
      | none => none)
  match entries with
  | [] => ['\x7b', '\x7d']
  | _ :: _ =>
    (jstr "\x7b\n" ++ List.intercalate (jstr ",\n") entries ++
      jstr "\n" ++ jsonIndentStr lvl) ++ ['\x7d']

mutual
/-- Two-space-indented JSON rendering (the degraded-fallback serializer
body): `none` is an undefined value, which JSON omits in objects and
renders as null inside arrays. -/
def jsonStr (lvl : Nat) : Value → Option JStr
  | .vUndefined => none
  | .vNull => some (jstr "null")
  | .vBool true => some (jstr "true")
  | .vBool false => some (jstr "false")
  | .vNum n => some (intToString n)
  | .vStr s => some (jsonQuote s)
  | .vArr [] => some ['[', ']']
  | .vArr (e :: es) =>
    some (renderJsonArr lvl (jsonStrList (lvl + 1) (e :: es)))
  | .vObj fields =>
    some (renderJsonObj lvl (dedupRendered (jsonStrFields (lvl + 1) fields)))

/-- Render the elements of a JSON array; undefined elements become null. -/
def jsonStrList (lvl : Nat) : List Value → List JStr
  | [] => []
  | e :: es => (jsonStr lvl e).getD (jstr "null") :: jsonStrList lvl es

/-- Render the values of the object fields, keeping keys. -/
def jsonStrFields (lvl : Nat) : List (JStr × Value) → List (JStr × Option JStr)
  | [] => []
  | (k, v) :: ps => (k, jsonStr lvl v) :: jsonStrFields lvl ps
end

/-- The comment header marking degraded serialization output. -/
def fallbackHeader : JStr :=
  jstr "# NOTE: YAML library unavailable at runtime, writing JSON-like content as a fallback.\n"

/-- The JSON text concatenated after the fallback header: a top-level
undefined stringification concatenates as the text undefined. -/
def jsonStringifyTop (obj : Value) : JStr :=
  (jsonStr 0 obj).getD (jstr "undefined")

/-- `stringifyYaml` (fs.ts lines 466-493): serialize with the library when
available (its deterministic style options are part of the collaborator);
an unavailable library or a thrown stringify falls back to the marked JSON
rendering.  Finally, append one newline when the result does not already
end with one. -/
def stringifyYaml (c : Codec) (obj : Value) : JStr :=
  let result : JStr :=
    match c.lib with
    | some lib =>
      match lib.stringify obj with
      | some s => s
      | none => fallbackHeader ++ jsonStringifyTop obj
    | none => fallbackHeader ++ jsonStringifyTop obj
  if result.getLast? = some '\n' then result else result ++ ['\n']

/-- Remove a file from a directory (names within a directory are unique). -/
def Dir.unlink (d : Dir) (name : JStr) : Dir :=
  ⟨d.files.filter (fun f => !(f.name == name)), d.writeFails⟩

/-- Overwrite a file in a directory, creating it when absent. -/
def Dir.writeTo (d : Dir) (name : JStr) (content : JStr) : Dir :=
  if d.files.any (fun f => f.name == name) then
    ⟨d.files.map (fun f => if f.name == name then ⟨f.name, some content⟩ else f),
     d.writeFails⟩
  else ⟨d.files ++ [⟨name, some content⟩], d.writeFails⟩

/-- `updateEntityFile` (fs.ts lines 376-413): locate the target by direct
file name first and write or unlink it; a write failure there falls back to
the scan-and-match path, whose own no-match outcome is the item-not-found
error and whose write failure is the persistence error.  An exception
thrown by the matcher during the scan propagates before anything is
written; the provenance field of the matched document names the file to
rewrite, and a non-string provenance value makes the uncaught path join
throw. -/
def updateEntityFile (c : Codec) (dir : Dir) (id : JStr) (newValue : Option Value) :
    Outcome Unit × Dir :=
  let fallback : Outcome Unit × Dir :=
    match findThrow (fun f => matchesId f id) (getEntityFiles c dir noOptions) with
    | .thrown => (.thrown, dir)
    | .val none => (.err ⟨jstr "item not found", 404⟩, dir)
    | .val (some m) =>
      match getField m (jstr "__file") with
      | .vStr name =>
        if dir.writeFails name then (.err ⟨jstr "Failed to update file", 500⟩, dir)
        else
          match newValue with
          | none => (.ok (), dir.unlink name)
          | some v => (.ok (), dir.writeTo name (stringifyYaml c v))
      | _ => (.thrown, dir)
  match findEntityFile dir id with
  | some file =>
    if dir.writeFails file.name then fallback
    else
      match newValue with
      | none => (.ok (), dir.unlink file.name)
      | some v => (.ok (), dir.writeTo file.name (stringifyYaml c v))
  | none => fallback

/-- `writeSingleEntity` (fs.ts lines 415-424): resolve the entity
directory and delegate to `updateEntityFile`; the updated filesystem maps
the entity type to the updated directory. -/
def writeSingleEntity (c : Codec) (fsys : FileSystem) (entityDirName : JStr)
    (id : JStr) (newValue : Value) : Outcome Unit × FileSystem :=
  match fsys.dirs entityDirName with
  | none => (.err ⟨entityDirName ++ jstr " directory not found", 500⟩, fsys)
  | some dir =>
    let r := updateEntityFile c dir id (some newValue)
    (r.1, ⟨fun e => if e = entityDirName then some r.2 else fsys.dirs e,
           fsys.nestedRoots, fsys.lookupFiles⟩)

/-- `deleteSingleEntity` (fs.ts lines 426-431): a write of null, which
unlinks the located file. -/
def deleteSingleEntity (c : Codec) (fsys : FileSystem) (entityDirName : JStr)
    (id : JStr) : Outcome Unit × FileSystem :=
  match fsys.dirs entityDirName with
  | none => (.err ⟨entityDirName ++ jstr " directory not found", 500⟩, fsys)
  | some dir =>
    let r := updateEntityFile c dir id none
    (r.1, ⟨fun e => if e = entityDirName then some r.2 else fsys.dirs e,
           fsys.nestedRoots, fsys.lookupFiles⟩)

/-- `NEW_ENUMS` (fs.ts lines 456-464): the fixed allow-list of lookup
table names. -/
def NEW_ENUMS : List JStr :=
  [jstr "material_certifications",
   jstr "material_tags",
   jstr "material_types",
   jstr "material_tag_categories",
   jstr "material_photo_types",
   jstr "brand_link_pattern_types",
   jstr "countries"]

/-- `readLookupTable` (fs.ts lines 496-523): only allow-listed names
resolve; for those, read the single backing file from the fixed external
location (a failed read is the not-found error), parse it, and require a
top-level sequence, returning it with the fixed meta key. -/
def readLookupTable (c : Codec) (fsys : FileSystem) (tableName : JStr) :
    Except ErrObj (List Value × JStr) :=
  if NEW_ENUMS.contains tableName then
    match fsys.lookupFiles tableName with
    | none => .error ⟨jstr "Lookup table not found", 404⟩
    | some content =>
      match parseYaml c content with
      | .vArr items => .ok (items, jstr "items")
      | _ => .error ⟨jstr "Invalid lookup table file (expected array)", 500⟩
  else .error ⟨jstr "Lookup table not found", 404⟩

/-! ## Helper lemmas -/

theorem lookupLast_append_key (l : List (JStr × Value)) (k : JStr) (v : Value) :
    lookupLast (l ++ [(k, v)]) k = some v := by
  induction l with
  | nil => simp [lookupLast]
  | cons p ps ih => simp [lookupLast, ih]

theorem getField_withBrandRef (f : Value) (b : JStr) :
    getField (withBrandRef f b) (jstr "brand") =
      Value.vObj [(jstr "slug", Value.vStr b)] := by
  simp [withBrandRef, getField, lookupLast_append_key]

theorem strEqMatch (v : Value) (id : JStr) :
    (match v with | .vStr s => s == id | _ => false) = true ↔
      v = Value.vStr id := by
  cases v <;> simp

theorem optEqMatch (o : Option JStr) (id : JStr) :
    (match o with | some s => s == id | none => false) = true ↔ o = some id := by
  cases o <;> simp

/-! ## Shared concrete fixtures used by witnesses and counterexamples -/

/-- A codec with the yaml library unavailable: both paths run the
repository's own fallback parser and serializer. -/
def exCodec : Codec := ⟨none⟩

/-- A directory holding one parseable file whose content defines its own
provenance key. -/
def exShadowDir : Dir :=
  ⟨[⟨jstr "real.yaml", some (jstr "__file: other.yaml")⟩], fun _ => false⟩

/-- The document the collection scan produces for the file of
`exShadowDir`. -/
def exShadowDoc : Value :=
  mkScannedDoc (jstr "real.yaml") (naiveParseYaml (jstr "__file: other.yaml"))

/-- A yaml library that parses every file to a document with a numeric
name field, as the real library does for a file containing "name: 5". -/
def exNumLib : YamlLib :=
  ⟨fun _ => some (Value.vObj [(jstr "name", Value.vNum 5)]), fun _ => none⟩

/-- A codec using `exNumLib`. -/
def exNumCodec : Codec := ⟨some exNumLib⟩

/-- A document whose slug field is "x" but whose name field is the number
5: the eager name-slug computation in `matchesId` throws on it. -/
def exCrashDoc : Value :=
  Value.vObj [(jstr "slug", Value.vStr (jstr "x")), (jstr "name", Value.vNum 5)]

/-- A directory holding one file whose parsed document has a numeric name
field. -/
def exCrashDir : Dir :=
  ⟨[⟨jstr "c.yaml", some (jstr "name: 5")⟩], fun _ => false⟩

/-- The document the collection scan produces for the file of
`exCrashDir` under `exNumCodec`. -/
def exCrashScanDoc : Value :=
  mkScannedDoc (jstr "c.yaml") (Value.vObj [(jstr "name", Value.vNum 5)])

/-- A filesystem resolving the entity type "parts" to `exCrashDir`. -/
def exCrashFsys : FileSystem :=
  ⟨fun e => if e = jstr "parts" then some exCrashDir else none,
   fun _ => none, fun _ => none⟩

/-- A directory whose direct file x.yaml is unreadable and whose other
file parses to a document with a numeric name field. -/
def exC9CrashDir : Dir :=
  ⟨[⟨jstr "x.yaml", none⟩, ⟨jstr "c.yaml", some (jstr "name: 5")⟩],
   fun _ => false⟩

/-- A filesystem resolving the entity type "things" to `exC9CrashDir`. -/
def exC9CrashFsys : FileSystem :=
  ⟨fun e => if e = jstr "things" then some exC9CrashDir else none,
   fun _ => none, fun _ => none⟩

/-! ## C7 (corrected) -/

/-- C7 counterexample: on the primary path the slug normalizer maps
"Café   Noir_Brand" to "cafe-noirbrand", not to the claimed
"cafe-noir-brand": the underscore is dropped by the punctuation-removing
step before the whitespace-or-underscore collapse ever sees it. -/
theorem C7_counterexample_underscore_dropped :
    slugifyName (Value.vStr (jstr "Café   Noir_Brand")) =
        .val (some (jstr "cafe-noirbrand")) ∧
      jstr "cafe-noirbrand" ≠ jstr "cafe-noir-brand" := by
  constructor
  · rfl
  · decide

/-- C7 (amended): the slug normalizer maps null and the empty string to
null, maps "Prusament PLA Galaxy Black" to "prusament-pla-galaxy-black",
and maps "Café   Noir_Brand" to "cafe-noirbrand" (diacritics stripped,
lowercased, whitespace runs collapsed to single hyphens, underscores
dropped together with the other punctuation). -/
theorem C7_slugifyName_examples :
    slugifyName Value.vNull = .val none ∧
      slugifyName (Value.vStr []) = .val none ∧
      slugifyName (Value.vStr (jstr "Prusament PLA Galaxy Black")) =
        .val (some (jstr "prusament-pla-galaxy-black")) ∧
      slugifyName (Value.vStr (jstr "Café   Noir_Brand")) =
        .val (some (jstr "cafe-noirbrand")) := by
  exact ⟨rfl, rfl, rfl, rfl⟩

/-! ## C10 (confirmed) -/

/-- C10: the nonempty punctuation-only input "!!!" is normalized to the
empty string, not to null, so the normalizer's result is not always
null-or-nonempty; and because the empty string is falsy, renormalizing
that output yields null, so normalize of normalize of "!!!" is null while
normalize of "!!!" is the empty string. -/
theorem C10_empty_slug_from_nonempty_input :
    jstr "!!!" ≠ [] ∧
      slugifyName (Value.vStr (jstr "!!!")) = .val (some []) ∧
      slugifyName (Value.vStr []) = .val none := by
  exact ⟨by decide, rfl, rfl⟩

/-! ## C8 (confirmed) -/

/-- C8: the scanned document's provenance field equals the source filename
exactly when the parsed content does not itself define a key named
"__file"; a parsed content that does define one shadows the
reader-attached filename (the provenance pair is spread first), and
stem matching in `matchesId` then follows the document's own value, as the
concrete shadowed document shows: it matches the stem of its claimed file
"other.yaml" and no longer matches the stem of its real source file
"real.yaml". -/
theorem C8_provenance_shadowing :
    (∀ name parsed, lookupLast (spreadFields parsed) (jstr "__file") = none →
        getField (mkScannedDoc name parsed) (jstr "__file") = Value.vStr name) ∧
      (∀ name parsed v,
        lookupLast (spreadFields parsed) (jstr "__file") = some v →
        getField (mkScannedDoc name parsed) (jstr "__file") = v) ∧
      getEntityFiles exCodec exShadowDir noOptions = [exShadowDoc] ∧
      getField exShadowDoc (jstr "__file") = Value.vStr (jstr "other.yaml") ∧
      matchesId exShadowDoc (jstr "other") = .val true ∧
      matchesId exShadowDoc (jstr "real") = .val false := by
  refine ⟨?_, ?_, rfl, rfl, rfl, rfl⟩
  · intro name parsed h
    simp [mkScannedDoc, getField, lookupLast, h]
  · intro name parsed v h
    simp [mkScannedDoc, getField, lookupLast, h]

/-- C8 witness: a parsed content with no fields leaves the provenance
field at the true source filename. -/
theorem C8_provenance_shadowing_witness :
    getField (mkScannedDoc (jstr "n.yaml") Value.vNull) (jstr "__file") =
      Value.vStr (jstr "n.yaml") :=
  C8_provenance_shadowing.1 (jstr "n.yaml") Value.vNull rfl

/-! ## C2 (corrected) -/

/-- The document's explicit slug field strictly equals the identifier. -/
def slugMatches (d : Value) (id : JStr) : Prop :=
  getField d (jstr "slug") = Value.vStr id

/-- The stem of the document's source filename equals the identifier. -/
def fileStemMatches (d : Value) (id : JStr) : Prop :=
  ∃ s, getField d (jstr "__file") = Value.vStr s ∧ stripYamlExt s = id

/-- The slug derived from the document's name field equals the
identifier (the derivation returning, not throwing). -/
def nameSlugMatches (d : Value) (id : JStr) : Prop :=
  slugifyName (getField d (jstr "name")) = .val (some id)

/-- The string coercion of the document's uuid field equals the
identifier. -/
def uuidMatches (d : Value) (id : JStr) : Prop :=
  jsToString (getField d (jstr "uuid")) = id

theorem stemEqMatch (d : Value) (id : JStr) :
    (match getField d (jstr "__file") with
     | Value.vStr s => some (stripYamlExt s)
     | _ => none) = some id ↔ fileStemMatches d id := by
  cases h : getField d (jstr "__file") <;> simp [fileStemMatches, h]

/-- C2 counterexample: the document with slug "x" and the numeric name 5
satisfies the slug disjunct for the identifier "x", yet `matchesId` does
not return true on it — the eagerly computed `slugifyName(entity.name)`
throws a TypeError on the truthy non-string name, so the call never
returns a boolean at all. -/
theorem C2_counterexample_numeric_name_throws :
    matchesId exCrashDoc (jstr "x") = .thrown ∧
      slugMatches exCrashDoc (jstr "x") := by
  exact ⟨rfl, rfl⟩

/-- C2 (amended): for a truthy document and a nonempty identifier, when
the eagerly computed name slug returns (the name field is a string or
falsy), `matchesId` returns true exactly when the slug field, the
source-filename stem, the name-derived slug, or the string-coerced uuid
equals the identifier — a pure disjunction, hence independent of
evaluation order.  When the name-slug computation throws (a truthy
non-string name field), `matchesId` propagates that exception instead of
returning a boolean.  It returns false whenever the document or the
identifier is falsy. -/
theorem C2_matchesId_disjunction :
    (∀ d id, jsFalsy d = false → id ≠ [] →
        slugifyName (getField d (jstr "name")) ≠ .thrown →
        (matchesId d id = .val true ↔
          (slugMatches d id ∨ fileStemMatches d id ∨ nameSlugMatches d id ∨
            uuidMatches d id))) ∧
      (∀ d id, jsFalsy d = false → id ≠ [] →
        slugifyName (getField d (jstr "name")) = .thrown →
        matchesId d id = .thrown) ∧
      (∀ d id, jsFalsy d = true ∨ id = [] → matchesId d id = .val false) := by
  refine ⟨?_, ?_, ?_⟩
  · intro d id hd hid hname
    have hid' : id.isEmpty = false := by
      cases id with
      | nil => simp at hid
      | cons a l => rfl
    cases hsl : slugifyName (getField d (jstr "name")) with
    | thrown => exact absurd hsl hname
    | val nameSlug =>
      have hns : nameSlugMatches d id ↔ nameSlug = some id := by
        unfold nameSlugMatches
        rw [hsl, JsRes.val.injEq]
      unfold matchesId
      rw [hd, hid']
      simp only [Bool.or_self, Bool.false_eq_true, if_false, hsl]
      rw [JsRes.val.injEq]
      rw [Bool.or_eq_true, Bool.or_eq_true, Bool.or_eq_true,
        strEqMatch, optEqMatch, optEqMatch, beq_iff_eq]
      rw [stemEqMatch, hns]
      unfold slugMatches uuidMatches
      tauto
  · intro d id hd hid hsl
    have hid' : id.isEmpty = false := by
      cases id with
      | nil => simp at hid
      | cons a l => rfl
    unfold matchesId
    rw [hd, hid']
    simp only [Bool.or_self, Bool.false_eq_true, if_false, hsl]
  · intro d id h
    unfold matchesId
    rcases h with h | h
    · rw [h]
      simp
    · subst h
      simp [List.isEmpty]

/-- C2 witness: a document whose slug field is "x" (and no name field, so
the name-slug computation returns null) matches the identifier "x". -/
theorem C2_matchesId_disjunction_witness :
    matchesId (Value.vObj [(jstr "slug", Value.vStr (jstr "x"))]) (jstr "x") =
      .val true :=
  (C2_matchesId_disjunction.1 (Value.vObj [(jstr "slug", Value.vStr (jstr "x"))])
    (jstr "x") rfl (by decide) (by decide)).mpr (Or.inl rfl)

/-! ## C1 (confirmed) -/

/-- C1: when the resolved entity directory holds a direct file named
id.yaml whose read succeeds, `readSingleEntity` returns its parsed content
immediately — for arbitrary parsed content, so in particular without
checking the content's slug, name-derived slug, or uuid fields against the
identifier; and when no id.yaml exists but id.yml does, the same holds for
the .yml file, the .yaml extension having been probed first. -/
theorem C1_direct_file_authoritative :
    (∀ c fsys entity id dir f content,
        fsys.dirs entity = some dir →
        dir.files.find? (fun g => g.name == id ++ jstr ".yaml") = some f →
        f.readResult = some content →
        readSingleEntity c fsys entity id = .ok (parseYaml c content)) ∧
      (∀ c fsys entity id dir f content,
        fsys.dirs entity = some dir →
        dir.files.find? (fun g => g.name == id ++ jstr ".yaml") = none →
        dir.files.find? (fun g => g.name == id ++ jstr ".yml") = some f →
        f.readResult = some content →
        readSingleEntity c fsys entity id = .ok (parseYaml c content)) := by
  constructor
  · intro c fsys entity id dir f content hdir hfind hread
    simp only [readSingleEntity, findEntityFile, hdir, hfind, hread]
  · intro c fsys entity id dir f content hdir hyaml hyml hread
    simp only [readSingleEntity, findEntityFile, hdir, hyaml, hyml, hread]

/-- A directory whose single file w.yaml holds a document whose slug,
name and uuid fields all disagree with the identifier "w". -/
def exDisagreeDir : Dir :=
  ⟨[⟨jstr "w.yaml", some (jstr "slug: zzz")⟩], fun _ => false⟩

/-- A filesystem resolving the entity type "widgets" to
`exDisagreeDir`. -/
def exDisagreeFsys : FileSystem :=
  ⟨fun e => if e = jstr "widgets" then some exDisagreeDir else none,
   fun _ => none, fun _ => none⟩

/-- C1 witness: reading "w" returns the parsed file content even though
the file's own slug field is "zzz". -/
theorem C1_direct_file_authoritative_witness :
    readSingleEntity exCodec exDisagreeFsys (jstr "widgets") (jstr "w") =
      .ok (parseYaml exCodec (jstr "slug: zzz")) :=
  C1_direct_file_authoritative.1 exCodec exDisagreeFsys (jstr "widgets")
    (jstr "w") exDisagreeDir ⟨jstr "w.yaml", some (jstr "slug: zzz")⟩
    (jstr "slug: zzz") rfl rfl rfl

/-! ## C9 (corrected) -/

/-- C9 counterexample: with the direct file x.yaml unreadable and a
sibling document whose name field is the number 5, the fallback scan
throws a TypeError inside the matcher, so `readSingleEntity` propagates
an exception — it does not return the claimed RecordNotFound error. -/
theorem C9_counterexample_scan_throws :
    readSingleEntity exNumCodec exC9CrashFsys (jstr "things") (jstr "x") =
        .thrown ∧
      (Outcome.thrown : Outcome Value) ≠
        .err ⟨jstr "thing not found", 404⟩ := by
  refine ⟨rfl, ?_⟩
  intro h
  exact Outcome.noConfusion h

/-- C9 (amended): when the direct file for the identifier exists but its
read fails, `readSingleEntity` does not propagate the read failure: it
falls back to the collection scan (which skips the unreadable file).
When the scan completes and no document matches the identifier, the
result is the not-found record error, not a read or parse failure; when
the scan itself throws (a scanned document with a truthy non-string name
field), that exception propagates instead.  (In the source, parse
failures never escape `parseYaml` at all — a throwing library parser
falls back to the naive line parser — so the failing-read case is the one
that exercises this fallback.) -/
theorem C9_read_failure_falls_back_to_scan :
    ∀ c fsys entity id dir f,
      fsys.dirs entity = some dir →
      findEntityFile dir id = some f →
      f.readResult = none →
      (findThrow (fun e => matchesId e id) (getEntityFiles c dir noOptions) =
          .val none →
        readSingleEntity c fsys entity id =
          .err ⟨entity.dropLast ++ jstr " not found", 404⟩) ∧
      (findThrow (fun e => matchesId e id) (getEntityFiles c dir noOptions) =
          .thrown →
        readSingleEntity c fsys entity id = .thrown) := by
  intro c fsys entity id dir f hdir hfind hread
  constructor
  · intro hscan
    simp only [readSingleEntity, readSingleEntityScan, hdir, hfind, hread, hscan]
  · intro hscan
    simp only [readSingleEntity, readSingleEntityScan, hdir, hfind, hread, hscan]

/-- A directory whose single file x.yaml exists but cannot be read. -/
def exUnreadableDir : Dir := ⟨[⟨jstr "x.yaml", none⟩], fun _ => false⟩

/-- A filesystem resolving the entity type "things" to
`exUnreadableDir`. -/
def exUnreadableFsys : FileSystem :=
  ⟨fun e => if e = jstr "things" then some exUnreadableDir else none,
   fun _ => none, fun _ => none⟩

/-- C9 witness: reading "x" out of the directory whose direct file exists
but cannot be read yields the 404 record-not-found error. -/
theorem C9_read_failure_falls_back_to_scan_witness :
    readSingleEntity exCodec exUnreadableFsys (jstr "things") (jstr "x") =
      .err ⟨jstr "thing not found", 404⟩ :=
  (C9_read_failure_falls_back_to_scan exCodec exUnreadableFsys (jstr "things")
    (jstr "x") exUnreadableDir ⟨jstr "x.yaml", none⟩ rfl rfl rfl).1 rfl

/-! ## C3 (corrected) -/

/-- C3 counterexample: a directory with no direct file for "x" whose only
document has the numeric name 5 — the document satisfies none of the four
matching strategies (slug, stem and uuid differ, and the name-slug
evaluation throws rather than matching), yet the write and the delete
propagate the TypeError thrown inside the fallback scan instead of
returning the claimed item-not-found error. -/
theorem C3_counterexample_scan_throws :
    findEntityFile exCrashDir (jstr "x") = none ∧
      getEntityFiles exNumCodec exCrashDir noOptions = [exCrashScanDoc] ∧
      ¬ slugMatches exCrashScanDoc (jstr "x") ∧
      ¬ fileStemMatches exCrashScanDoc (jstr "x") ∧
      slugifyName (getField exCrashScanDoc (jstr "name")) = .thrown ∧
      ¬ uuidMatches exCrashScanDoc (jstr "x") ∧
      (writeSingleEntity exNumCodec exCrashFsys (jstr "parts") (jstr "x")
          Value.vNull).1 = .thrown ∧
      (deleteSingleEntity exNumCodec exCrashFsys (jstr "parts")
          (jstr "x")).1 = .thrown := by
  refine ⟨rfl, rfl, ?_, ?_, rfl, by unfold uuidMatches; decide, rfl, rfl⟩
  · intro h
    unfold slugMatches at h
    rw [show getField exCrashScanDoc (jstr "slug") = Value.vUndefined from rfl]
      at h
    exact Value.noConfusion h
  · intro hfs
    unfold fileStemMatches at hfs
    obtain ⟨s, hs, hst⟩ := hfs
    rw [show getField exCrashScanDoc (jstr "__file") =
      Value.vStr (jstr "c.yaml") from rfl] at hs
    injection hs with h
    subst h
    exact absurd hst (by decide)

/-- C3 (amended): when no direct file for the identifier exists and the
fallback scan completes with no document matching it by any strategy,
both the write and the delete return the item-not-found error and leave
the filesystem (in particular the resolved directory and every file in
it) exactly as it was — so a write to a non-existent identifier never
creates a file through this path.  When the fallback scan instead throws
(a scanned document with a truthy non-string name field), both calls
propagate that exception, still without touching any file. -/
theorem C3_write_delete_no_match_not_found :
    ∀ c fsys t id dir v,
      fsys.dirs t = some dir →
      findEntityFile dir id = none →
      ((findThrow (fun f => matchesId f id) (getEntityFiles c dir noOptions) =
          .val none →
        writeSingleEntity c fsys t id v =
            (.err ⟨jstr "item not found", 404⟩, fsys) ∧
          deleteSingleEntity c fsys t id =
            (.err ⟨jstr "item not found", 404⟩, fsys)) ∧
       (findThrow (fun f => matchesId f id) (getEntityFiles c dir noOptions) =
          .thrown →
        writeSingleEntity c fsys t id v = (.thrown, fsys) ∧
          deleteSingleEntity c fsys t id = (.thrown, fsys))) := by
  intro c fsys t id dir v hdir hfind
  obtain ⟨dmap, nmap, lmap⟩ := fsys
  simp only at hdir
  have hmap : (fun e => if e = t then some dir else dmap e) = dmap := by
    funext e
    by_cases he : e = t
    · subst he
      simp [hdir]
    · simp [he]
  constructor
  · intro hscan
    constructor
    · simp only [writeSingleEntity, updateEntityFile, hdir, hfind, hscan, hmap]
    · simp only [deleteSingleEntity, updateEntityFile, hdir, hfind, hscan, hmap]
  · intro hscan
    constructor
    · simp only [writeSingleEntity, updateEntityFile, hdir, hfind, hscan, hmap]
    · simp only [deleteSingleEntity, updateEntityFile, hdir, hfind, hscan, hmap]

/-- An empty directory for the write-path witness. -/
def exEmptyDir : Dir := ⟨[], fun _ => false⟩

/-- A filesystem resolving the entity type "gadgets" to the empty
directory. -/
def exEmptyFsys : FileSystem :=
  ⟨fun e => if e = jstr "gadgets" then some exEmptyDir else none,
   fun _ => none, fun _ => none⟩

/-- C3 witness: writing and deleting the absent identifier "g" both
return the item-not-found error with the filesystem untouched. -/
theorem C3_write_delete_no_match_not_found_witness :
    writeSingleEntity exCodec exEmptyFsys (jstr "gadgets") (jstr "g")
          Value.vNull =
        (.err ⟨jstr "item not found", 404⟩, exEmptyFsys) ∧
      deleteSingleEntity exCodec exEmptyFsys (jstr "gadgets") (jstr "g") =
        (.err ⟨jstr "item not found", 404⟩, exEmptyFsys) :=
  (C3_write_delete_no_match_not_found exCodec exEmptyFsys (jstr "gadgets")
    (jstr "g") exEmptyDir Value.vNull rfl rfl).1 rfl

/-! ## C6 (corrected) -/

/-- A filesystem whose external lookup file for "countries" parses to a
mapping rather than a sequence. -/
def exLookupFsys : FileSystem :=
  ⟨fun _ => none, fun _ => none,
   fun t => if t = jstr "countries" then some (jstr "a: b") else none⟩

/-- C6 counterexample: for an allow-listed table whose backing file does
not hold a sequence, the error message is
"Invalid lookup table file (expected array)", not the claimed
"invalid lookup table". -/
theorem C6_counterexample_error_message :
    readLookupTable exCodec exLookupFsys (jstr "countries") =
        .error ⟨jstr "Invalid lookup table file (expected array)", 500⟩ ∧
      jstr "Invalid lookup table file (expected array)" ≠
        jstr "invalid lookup table" := by
  exact ⟨rfl, by decide⟩

/-- C6 (amended): a table name off the fixed allow-list yields the 404
not-found error regardless of the filesystem state; for an allow-listed
name, a missing or unreadable backing file yields the same not-found
error, a backing file parsing to anything other than a top-level sequence
yields the 500 error "Invalid lookup table file (expected array)", and a
backing file holding a sequence yields that sequence with the fixed meta
key. -/
theorem C6_readLookupTable_contract :
    (∀ c fsys name, name ∉ NEW_ENUMS →
        readLookupTable c fsys name =
          .error ⟨jstr "Lookup table not found", 404⟩) ∧
      (∀ c fsys name, name ∈ NEW_ENUMS → fsys.lookupFiles name = none →
        readLookupTable c fsys name =
          .error ⟨jstr "Lookup table not found", 404⟩) ∧
      (∀ c fsys name content, name ∈ NEW_ENUMS →
        fsys.lookupFiles name = some content →
        (∀ items, parseYaml c content ≠ Value.vArr items) →
        readLookupTable c fsys name =
          .error ⟨jstr "Invalid lookup table file (expected array)", 500⟩) ∧
      (∀ c fsys name content items, name ∈ NEW_ENUMS →
        fsys.lookupFiles name = some content →
        parseYaml c content = Value.vArr items →
        readLookupTable c fsys name = .ok (items, jstr "items")) := by
  refine ⟨?_, ?_, ?_, ?_⟩
  · intro c fsys name hmem
    have h : NEW_ENUMS.contains name = false := by
      simpa using hmem
    simp only [readLookupTable, h, if_false, Bool.false_eq_true]
  · intro c fsys name hmem hfile
    have h : NEW_ENUMS.contains name = true := by
      simpa using hmem
    simp only [readLookupTable, h, if_true, hfile]
  · intro c fsys name content hmem hfile hnoarr
    have h : NEW_ENUMS.contains name = true := by
      simpa using hmem
    simp only [readLookupTable, h, if_true, hfile]
  · intro c fsys name content items hmem hfile harr
    have h : NEW_ENUMS.contains name = true := by
      simpa using hmem
    simp only [readLookupTable, h, if_true, hfile, harr]

/-- C6 witness: the off-list name "bogus" is not found even on a
filesystem that has lookup files, and the listed name "countries" with a
sequence-holding backing file succeeds. -/
theorem C6_readLookupTable_contract_witness :
    readLookupTable exCodec exLookupFsys (jstr "bogus") =
        .error ⟨jstr "Lookup table not found", 404⟩ ∧
      readLookupTable exCodec
          ⟨fun _ => none, fun _ => none, fun _ => some (jstr "x")⟩
          (jstr "material_tags") =
        .error ⟨jstr "Invalid lookup table file (expected array)", 500⟩ :=
  ⟨C6_readLookupTable_contract.1 exCodec exLookupFsys (jstr "bogus")
      (by decide),
    C6_readLookupTable_contract.2.2.1 exCodec
      ⟨fun _ => none, fun _ => none, fun _ => some (jstr "x")⟩
      (jstr "material_tags") (jstr "x") (by decide) rfl
      (by
        intro items h
        rw [show parseYaml exCodec (jstr "x") = Value.vObj [] from rfl] at h
        exact Value.noConfusion h)⟩

/-! ## C5 (confirmed) -/

/-- C5: every document returned by the by-parent readers carries a brand
back-reference whose slug is the caller-supplied identifier verbatim, and
every document returned by the across-parents reader comes from some
subdirectory of the nested root and carries that subdirectory's literal
name as its brand slug. -/
theorem C5_nested_parent_annotation :
    (∀ c fsys t brandId opts l,
        readNestedEntitiesByBrand c fsys t brandId opts = .ok l →
        ∀ x ∈ l, getField x (jstr "brand") =
          Value.vObj [(jstr "slug", Value.vStr brandId)]) ∧
      (∀ c fsys t brandId id doc,
        readSingleNestedByBrand c fsys t brandId id = .ok doc →
        getField doc (jstr "brand") =
          Value.vObj [(jstr "slug", Value.vStr brandId)]) ∧
      (∀ c fsys t opts root l, fsys.nestedRoots t = some root →
        readAllNestedAcrossBrands c fsys t opts = .ok l →
        ∀ x ∈ l, ∃ n dir, (n, some dir) ∈ root.entries ∧
          x ∈ (getEntityFiles c dir opts).map (fun f => withBrandRef f n) ∧
          getField x (jstr "brand") = Value.vObj [(jstr "slug", Value.vStr n)]) := by
  refine ⟨?_, ?_, ?_⟩
  · intro c fsys t brandId opts l h x hx
    unfold readNestedEntitiesByBrand at h
    cases hdir : findBrandDirForNestedEntity c fsys t brandId with
    | thrown => rw [hdir] at h; exact absurd h (by simp)
    | val o =>
      cases o with
      | none => rw [hdir] at h; exact absurd h (by simp)
      | some dir =>
        rw [hdir] at h
        simp only at h
        injection h with h'
        subst h'
        obtain ⟨f, _, rfl⟩ := List.mem_map.mp hx
        exact getField_withBrandRef f brandId
  · intro c fsys t brandId id doc h
    unfold readSingleNestedByBrand at h
    cases hdir : findBrandDirForNestedEntity c fsys t brandId with
    | thrown => rw [hdir] at h; exact absurd h (by simp)
    | val o =>
      cases o with
      | none => rw [hdir] at h; exact absurd h (by simp)
      | some dir =>
        rw [hdir] at h
        simp only at h
        have hof : ∃ f, doc = withBrandRef f brandId := by
          cases hfe : findEntityFile dir id with
          | some file =>
            simp only [hfe] at h
            cases hr : file.readResult with
            | some content =>
              simp only [hr] at h
              injection h with h'
              exact ⟨parseYaml c content, h'.symm⟩
            | none =>
              simp only [hr] at h
              cases hs : findThrow (fun e => matchesId e id)
                  (getEntityFiles c dir noOptions) with
              | thrown => simp only [hs] at h; exact Outcome.noConfusion h
              | val o' =>
                cases o' with
                | none => simp only [hs] at h; exact Outcome.noConfusion h
                | some m =>
                  simp only [hs] at h
                  injection h with h'
                  exact ⟨stripFileField m, h'.symm⟩
          | none =>
            simp only [hfe] at h
            cases hs : findThrow (fun e => matchesId e id)
                (getEntityFiles c dir noOptions) with
            | thrown => simp only [hs] at h; exact Outcome.noConfusion h
            | val o' =>
              cases o' with
              | none => simp only [hs] at h; exact Outcome.noConfusion h
              | some m =>
                simp only [hs] at h
                injection h with h'
                exact ⟨stripFileField m, h'.symm⟩
        obtain ⟨f, rfl⟩ := hof
        exact getField_withBrandRef f brandId
  · intro c fsys t opts root l hroot h x hx
    unfold readAllNestedAcrossBrands at h
    rw [hroot] at h
    injection h with h'
    subst h'
    obtain ⟨e, he, hxe⟩ := List.mem_flatMap.mp hx
    obtain ⟨n, dopt⟩ := e
    cases dopt with
    | none => simp at hxe
    | some dir =>
      simp only at hxe
      obtain ⟨f, _, rfl⟩ := List.mem_map.mp hxe
      exact ⟨n, dir, he, hxe, getField_withBrandRef f n⟩

/-- A brand subdirectory holding one material file. -/
def exMatDir : Dir := ⟨[⟨jstr "m1.yaml", some (jstr "name: M1")⟩], fun _ => false⟩

/-- A nested root for "materials" with the single literal subdirectory
"acme". -/
def exMatRoot : BrandRoot := ⟨[(jstr "acme", some exMatDir)]⟩

/-- A filesystem resolving the nested type "materials" to `exMatRoot`. -/
def exNestedFsys : FileSystem :=
  ⟨fun _ => none,
   fun t => if t = jstr "materials" then some exMatRoot else none,
   fun _ => none⟩

/-- C5 witness: the single nested read under brand identifier "acme"
returns a document whose brand back-reference slug is exactly "acme". -/
theorem C5_nested_parent_annotation_witness :
    getField (withBrandRef (parseYaml exCodec (jstr "name: M1")) (jstr "acme"))
        (jstr "brand") =
      Value.vObj [(jstr "slug", Value.vStr (jstr "acme"))] :=
  C5_nested_parent_annotation.2.1 exCodec exNestedFsys (jstr "materials")
    (jstr "acme") (jstr "m1")
    (withBrandRef (parseYaml exCodec (jstr "name: M1")) (jstr "acme")) rfl

/-! ## C4 (corrected) -/

/-- The string ends with a newline and the character before it (when any)
is not another newline. -/
def endsWithOneNewline (l : JStr) : Prop :=
  l.getLast? = some '\n' ∧ l.dropLast.getLast? ≠ some '\n'

theorem digit10_ne_newline (d : Nat) : digit10 d ≠ '\n' := by
  unfold digit10
  split <;> decide

theorem natDigits_getLast (n : Nat) :
    (natDigits n).getLast? = some (digit10 (n % 10)) := by
  unfold natDigits natDigitsAux
  by_cases h : n < 10
  · rw [if_pos h]
    rw [Nat.mod_eq_of_lt h]
    rfl
  · rw [if_neg h]
    exact List.getLast?_concat _

theorem intToString_getLast (n : Int) :
    ∃ ch, (intToString n).getLast? = some ch ∧ ch ≠ '\n' := by
  unfold intToString
  by_cases hn : n < 0
  · rw [if_pos hn]
    have h := natDigits_getLast n.natAbs
    have hne : natDigits n.natAbs ≠ [] := by
      intro he
      rw [he] at h
      simp at h
    refine ⟨digit10 (n.natAbs % 10), ?_, digit10_ne_newline _⟩
    rw [show ('-' :: natDigits n.natAbs) = ['-'] ++ natDigits n.natAbs from rfl]
    rw [List.getLast?_append_of_ne_nil _ hne]
    exact h
  · rw [if_neg hn]
    exact ⟨digit10 (n.toNat % 10), natDigits_getLast _, digit10_ne_newline _⟩

theorem jsonQuote_getLast (s : JStr) : (jsonQuote s).getLast? = some '"' := by
  unfold jsonQuote
  rw [show ('"' :: (s.flatMap jsonEscapeChar ++ ['"'])) =
    ['"'] ++ (s.flatMap jsonEscapeChar ++ ['"']) from rfl]
  rw [List.getLast?_append_of_ne_nil _ (by simp)]
  exact List.getLast?_concat _

theorem renderJsonArr_getLast (lvl : Nat) (items : List JStr) :
    (renderJsonArr lvl items).getLast? = some ']' := by
  unfold renderJsonArr
  exact List.getLast?_concat _

theorem renderJsonObj_getLast (lvl : Nat) (rendered : List (JStr × Option JStr)) :
    (renderJsonObj lvl rendered).getLast? = some '\x7d' := by
  simp only [renderJsonObj]
  split
  · rfl
  · exact List.getLast?_concat _

/-- Every defined JSON rendering is nonempty and does not end with a
newline. -/
theorem jsonStr_getLast (lvl : Nat) (v : Value) (s : JStr)
    (h : jsonStr lvl v = some s) :
    ∃ ch, s.getLast? = some ch ∧ ch ≠ '\n' := by
  cases v with
  | vUndefined => simp [jsonStr] at h
  | vNull =>
    simp only [jsonStr] at h
    injection h with h'
    subst h'
    exact ⟨'l', rfl, by decide⟩
  | vBool b =>
    cases b <;> simp only [jsonStr] at h <;> injection h with h' <;> subst h'
    · exact ⟨'e', rfl, by decide⟩
    · exact ⟨'e', rfl, by decide⟩
  | vNum n =>
    simp only [jsonStr] at h
    injection h with h'
    subst h'
    exact intToString_getLast n
  | vStr s0 =>
    simp only [jsonStr] at h
    injection h with h'
    subst h'
    exact ⟨'"', jsonQuote_getLast s0, by decide⟩
  | vArr es =>
    cases es with
    | nil =>
      simp only [jsonStr] at h
      injection h with h'
      subst h'
      exact ⟨']', rfl, by decide⟩
    | cons e es =>
      simp only [jsonStr] at h
      injection h with h'
      subst h'
      exact ⟨']', renderJsonArr_getLast _ _, by decide⟩
  | vObj fields =>
    simp only [jsonStr] at h
    injection h with h'
    subst h'
    exact ⟨'\x7d', renderJsonObj_getLast _ _, by decide⟩

/-- The whole degraded fallback text (header plus JSON body) never ends
with a newline: the body is nonempty and its last character is not a
newline. -/
theorem fallbackText_getLast (obj : Value) :
    ∃ ch, (fallbackHeader ++ jsonStringifyTop obj).getLast? = some ch ∧
      ch ≠ '\n' := by
  obtain ⟨ch, hch, hne⟩ : ∃ ch, (jsonStringifyTop obj).getLast? = some ch ∧
      ch ≠ '\n' := by
    unfold jsonStringifyTop
    cases hj : jsonStr 0 obj with
    | some s =>
      simpa using jsonStr_getLast 0 obj s hj
    | none =>
      exact ⟨'d', rfl, by decide⟩
  have hnonempty : jsonStringifyTop obj ≠ [] := by
    intro he
    rw [he] at hch
    simp at hch
  exact ⟨ch, by rw [List.getLast?_append_of_ne_nil _ hnonempty]; exact hch, hne⟩

/-- C4 counterexample: the serializer only appends a newline when the
library output lacks one, so a library stringification that already ends
with two newlines is returned unchanged — the output does not end with
exactly one trailing newline on the primary path. -/
def badYamlLib : YamlLib := ⟨fun _ => none, fun _ => some (jstr "a\n\n")⟩

theorem C4_counterexample_two_newlines :
    stringifyYaml ⟨some badYamlLib⟩ (Value.vObj []) = jstr "a\n\n" ∧
      ¬ endsWithOneNewline (jstr "a\n\n") := by
  constructor
  · rfl
  · intro ⟨_, h2⟩
    exact h2 rfl

/-- C4 (amended): every serialized output ends with at least one trailing
newline; on the degraded fallback paths (library unavailable, or the
library stringify throwing) it ends with exactly one; on the primary
library path it ends with exactly one provided the library's own output
does not already end with two consecutive newlines. -/
theorem C4_stringifyYaml_trailing_newline :
    (∀ c obj, (stringifyYaml c obj).getLast? = some '\n') ∧
      (∀ lib obj s, lib.stringify obj = some s →
        ¬(s.getLast? = some '\n' ∧ s.dropLast.getLast? = some '\n') →
        endsWithOneNewline (stringifyYaml ⟨some lib⟩ obj)) ∧
      (∀ lib obj, lib.stringify obj = none →
        endsWithOneNewline (stringifyYaml ⟨some lib⟩ obj)) ∧
      (∀ obj, endsWithOneNewline (stringifyYaml ⟨none⟩ obj)) := by
  have key : ∀ r : JStr,
      (if r.getLast? = some '\n' then r else r ++ ['\n']).getLast? = some '\n' := by
    intro r
    split
    next h => exact h
    next => exact List.getLast?_concat _
  refine ⟨?_, ?_, ?_, ?_⟩
  · intro c obj
    cases hc : c.lib with
    | some lib =>
      cases hs : lib.stringify obj with
      | some s =>
        simp only [stringifyYaml, hc, hs]
        exact key s
      | none =>
        simp only [stringifyYaml, hc, hs]
        exact key _
    | none =>
      simp only [stringifyYaml, hc]
      exact key _
  · intro lib obj s hs hnot
    unfold stringifyYaml
    simp only [hs]
    by_cases h : s.getLast? = some '\n'
    · rw [if_pos h]
      exact ⟨h, fun hd => hnot ⟨h, hd⟩⟩
    · rw [if_neg h]
      refine ⟨List.getLast?_concat _, ?_⟩
      rw [List.dropLast_concat]
      exact h
  · intro lib obj hs
    unfold stringifyYaml
    simp only [hs]
    obtain ⟨ch, hch, hne⟩ := fallbackText_getLast obj
    have hcond : ¬ (fallbackHeader ++ jsonStringifyTop obj).getLast? = some '\n' := by
      rw [hch]
      simp [hne]
    rw [if_neg hcond]
    refine ⟨List.getLast?_concat _, ?_⟩
    rw [List.dropLast_concat]
    exact hcond
  · intro obj
    unfold stringifyYaml
    obtain ⟨ch, hch, hne⟩ := fallbackText_getLast obj
    have hcond : ¬ (fallbackHeader ++ jsonStringifyTop obj).getLast? = some '\n' := by
      rw [hch]
      simp [hne]
    rw [if_neg hcond]
    refine ⟨List.getLast?_concat _, ?_⟩
    rw [List.dropLast_concat]
    exact hcond

/-- A library whose stringification of any value is the newline-free text
"a". -/
def exPlainLib : YamlLib := ⟨fun _ => none, fun _ => some (jstr "a")⟩

/-- C4 witness: with a library emitting "a", the serialized output ends
with exactly one trailing newline; likewise on the library-unavailable
path. -/
theorem C4_stringifyYaml_trailing_newline_witness :
    endsWithOneNewline (stringifyYaml ⟨some exPlainLib⟩ Value.vNull) ∧
      endsWithOneNewline (stringifyYaml ⟨none⟩ Value.vNull) :=
  ⟨C4_stringifyYaml_trailing_newline.2.1 exPlainLib Value.vNull (jstr "a") rfl
      (by intro ⟨h1, _⟩; exact absurd h1 (by decide)),
    C4_stringifyYaml_trailing_newline.2.2.2 Value.vNull⟩
